import Mathlib

/-!
Shallow embedding of `src/fbchart.py`, a JSON-driven fretboard chart plotter,
together with theorems settling the specification claims about it.

JSON values that matter to the program are numbers and strings; array
elements are either objects (string-keyed records) or not, and the top level
is either a list or not.  The plotting backend is opaque: the embedding
records the primitives the program would emit (grid lines, tick labels,
circle patches) instead of drawing them.
-/

/-- A JSON scalar value as used by the program: a number or a string. -/
inductive JVal where
  | num (q : ℚ)
  | str (s : String)
deriving DecidableEq, Repr

/-- A JSON object: an association list from keys to values (Python `dict`). -/
abbrev Obj := List (String × JVal)

/-- Python `d.get(k)` / `d[k]`: the value stored at the first matching key. -/
def Obj.get : Obj → String → Option JVal
  | [], _ => none
  | p :: ps, k => if p.1 == k then some p.2 else Obj.get ps k

/-- Python `k in d`. -/
def Obj.hasKey : Obj → String → Bool
  | [], _ => false
  | p :: ps, k => (p.1 == k) || Obj.hasKey ps k

/-- Python `d[k] = v` on a key already present: replace the stored value. -/
def Obj.set : Obj → String → JVal → Obj
  | [], _, _ => []
  | p :: ps, k, v => (if p.1 == k then (k, v) else p) :: Obj.set ps k v

/-- An element of the top-level JSON array: an object, or something else
(Python `isinstance(entry, dict)` fails). -/
inductive JEntry where
  | obj (fields : Obj)
  | nonObj
deriving DecidableEq

/-- A parsed top-level JSON value: a list of elements, or something else
(Python `isinstance(data, list)` fails). -/
inductive JTop where
  | list (entries : List JEntry)
  | nonList
deriving DecidableEq

/-- `STRING_MAP` from fbchart.py: mapping of string names to y-axis integers. -/
def STRING_MAP : List (String × ℚ) :=
  [("E", 0), ("A", 1), ("D", 2), ("G", 3), ("B", 4), ("e", 5)]

/-- Dictionary lookup in `STRING_MAP`. -/
def lookupSymbol (s : String) : Option ℚ :=
  (STRING_MAP.find? (fun p => p.1 == s)).map (fun p => p.2)

/-- The per-entry normalization step of `load_data`: copy the entry and, when
its "string" field holds a string, replace it by the mapped number, failing
on an unrecognized name. -/
def normalizeEntry (entry : Obj) : Except String Obj :=
  match Obj.get entry "string" with
  | some (JVal.str v) =>
      match lookupSymbol v with
      | some n => Except.ok (Obj.set entry "string" (JVal.num n))
      | none => Except.error ("Invalid string value " ++ v)
  | _ => Except.ok entry

/-- The normalization loop of `load_data`: skip non-dict entries, normalize
the rest in order, propagating the first failure. -/
def normalizeEntries : List JEntry → Except String (List Obj)
  | [] => Except.ok []
  | JEntry.nonObj :: rest => normalizeEntries rest
  | JEntry.obj e :: rest =>
      match normalizeEntry e with
      | Except.error msg => Except.error msg
      | Except.ok item =>
          match normalizeEntries rest with
          | Except.error msg => Except.error msg
          | Except.ok tail => Except.ok (item :: tail)

/-- `load_data` from fbchart.py, after JSON parsing: reject a non-list top
level, otherwise normalize the entries. -/
def load_data : JTop → Except String (List Obj)
  | JTop.nonList => Except.error "JSON must contain a list of circle specs"
  | JTop.list entries => normalizeEntries entries

/-- A circle patch as handed to the plotting backend by `plot_circles`. -/
structure MCircle where
  cx : JVal
  cy : JVal
  radius : JVal
  color : JVal
  alpha : ℚ
deriving DecidableEq

/-- `circ.get("fret", circ.get("x"))`: the horizontal coordinate with the
old-key fallback. -/
def horizRaw (c : Obj) : Option JVal :=
  (Obj.get c "fret").orElse (fun _ => Obj.get c "x")

/-- `circ.get("string", circ.get("y"))`: the vertical coordinate with the
old-key fallback. -/
def vertRaw (c : Obj) : Option JVal :=
  (Obj.get c "string").orElse (fun _ => Obj.get c "y")

/-- The body of the `plot_circles` loop for one record: skip when either
coordinate is missing, otherwise build the patch with defaulted radius,
color and the fixed alpha 0.5. -/
def markerOf (circ : Obj) : Option MCircle :=
  match horizRaw circ, vertRaw circ with
  | some x, some y =>
      some { cx := x, cy := y,
             radius := (Obj.get circ "radius").getD (JVal.num (1/2)),
             color := (Obj.get circ "color").getD (JVal.str "blue"),
             alpha := 1/2 }
  | _, _ => none

/-- `plot_circles` from fbchart.py: the list of circle patches added to the
axes, in input order. -/
def plot_circles (circles : List Obj) : List MCircle :=
  circles.filterMap markerOf

/-- Numeric reading of a value; `none` models the Python `TypeError` that
arithmetic on a non-number would raise. -/
def JVal.toQ : JVal → Option ℚ
  | JVal.num q => some q
  | JVal.str _ => none

/-- `"fret" in c or "x" in c`. -/
def hasHoriz (c : Obj) : Bool :=
  Obj.hasKey c "fret" || Obj.hasKey c "x"

/-- `"string" in c or "y" in c`. -/
def hasVert (c : Obj) : Bool :=
  Obj.hasKey c "string" || Obj.hasKey c "y"

/-- One record's contribution to the list comprehension
`xs = [c.get("fret", c.get("x", 0)) for c in circles if "fret" in c or "x" in c]`. -/
def boundsContribX (c : Obj) : Option JVal :=
  if hasHoriz c then some ((horizRaw c).getD (JVal.num 0)) else none

/-- One record's contribution to the comprehension building `ys` in `main`. -/
def boundsContribY (c : Obj) : Option JVal :=
  if hasVert c then some ((vertRaw c).getD (JVal.num 0)) else none

/-- The list `xs` built in `main`. -/
def horizVals (circles : List Obj) : List JVal :=
  circles.filterMap boundsContribX

/-- The list `ys` built in `main`. -/
def vertVals (circles : List Obj) : List JVal :=
  circles.filterMap boundsContribY

/-- Read a whole list of values as numbers; `none` when any is not a number
(Python would raise while taking `min`/`max` or subtracting). -/
def allNums : List JVal → Option (List ℚ)
  | [] => some []
  | v :: vs =>
      match JVal.toQ v with
      | none => none
      | some q =>
          match allNums vs with
          | none => none
          | some qs => some (q :: qs)

/-- `(min(vals) - 1, max(vals) + 1)` with a default for the empty list, as in
`main`. -/
def boundsOf (vals : List ℚ) (dlo dhi : ℚ) : ℚ × ℚ :=
  match vals with
  | [] => (dlo, dhi)
  | v :: vs => (vs.foldl min v - 1, vs.foldl max v + 1)

/-- The horizontal bounds `(xmin, xmax)` computed in `main`. -/
def mainBoundsX (circles : List Obj) : Option (ℚ × ℚ) :=
  match allNums (horizVals circles) with
  | none => none
  | some qs => some (boundsOf qs 0 10)

/-- The vertical bounds `(ymin, ymax)` computed in `main`. -/
def mainBoundsY (circles : List Obj) : Option (ℚ × ℚ) :=
  match allNums (vertVals circles) with
  | none => none
  | some qs => some (boundsOf qs 0 10)

/-- Python `int()` on a rational: truncation toward zero. -/
def pyInt (q : ℚ) : ℤ :=
  Int.tdiv q.num q.den

/-- Python `range(a, b, step)` for a positive step (the program only uses
positive spacing). -/
def pyRange (a b step : ℤ) : List ℤ :=
  if step ≤ 0 then []
  else (List.range ((b - a + step - 1) / step).toNat).map (fun i : ℕ => a + (i : ℤ) * step)

/-- The fixed label list of `draw_grid`. -/
def gridLabels : List String := ["E", "A", "D", "G", "B", "e"]

/-- The horizontal-line positions computed by `draw_grid`: six values spread
evenly from `ymin` to `ymax` when `ymax > ymin`, else the integers 0..5. -/
def hPositions (ymin ymax : ℚ) : List ℚ :=
  if ymax > ymin then
    (List.range gridLabels.length).map
      (fun i : ℕ => ymin + (i : ℚ) * ((ymax - ymin) / ((gridLabels.length - 1 : ℕ) : ℚ)))
  else
    (List.range gridLabels.length).map (fun i : ℕ => (i : ℚ))

/-- The primitives `draw_grid` hands to the axes. -/
structure GridOutput where
  vlines : List ℤ
  hlines : List ℚ
  yticks : List ℚ
  ylabels : List String
deriving DecidableEq

/-- `draw_grid` from fbchart.py: vertical lines at `range(int(xmin),
int(xmax) + 1, spacing)`, six labeled horizontal lines. -/
def draw_grid (xmin xmax ymin ymax : ℚ) (spacing : ℤ) : GridOutput :=
  let positions := hPositions ymin ymax
  { vlines := pyRange (pyInt xmin) (pyInt xmax + 1) spacing,
    hlines := positions,
    yticks := positions,
    ylabels := gridLabels }

/-- The usage message printed (to standard output) on a wrong argument count. -/
def usageMessage (progName : String) : String :=
  "Usage: " ++ progName ++ " <data.json>"

/-- The message printed (to standard output) when the input path is absent. -/
def missingFileMessage (path : String) : String :=
  "File " ++ path ++ " does not exist"

/-- The observable outcome of running `main`. -/
inductive MainResult where
  | earlyExit (exitCode : ℕ) (message : String)
  | loadError (message : String)
  | typeError
  | rendered (grid : GridOutput) (markers : List MCircle)
      (xlim : ℚ × ℚ) (ylim : ℚ × ℚ)
deriving DecidableEq

/-- `main` from fbchart.py, as a function of the argument vector, whether the
given path exists, and the parsed JSON the file would yield.  `earlyExit`
carries the exit status and the printed message; `loadError` is the
uncaught `ValueError` from `load_data`; `typeError` is the uncaught Python
`TypeError` from arithmetic on non-numeric coordinates.  (Named
`fbchart_main` because Lean reserves `main` for executables.) -/
def fbchart_main (argv : List String) (fileExists : Bool) (fileJSON : JTop) : MainResult :=
  if argv.length ≠ 2 then
    MainResult.earlyExit 1 (usageMessage (argv.headD ""))
  else if fileExists = false then
    MainResult.earlyExit 1 (missingFileMessage (argv.getD 1 ""))
  else
    match load_data fileJSON with
    | Except.error msg => MainResult.loadError msg
    | Except.ok circles =>
        match mainBoundsX circles, mainBoundsY circles with
        | some (xmin, xmax), some (ymin, ymax) =>
            MainResult.rendered (draw_grid xmin xmax ymin ymax 1)
              (plot_circles circles) (xmin, xmax) (ymin, ymax)
        | _, _ => MainResult.typeError

/-- A record carries both coordinates (under either naming). -/
def hasBothCoords (c : Obj) : Bool :=
  hasHoriz c && hasVert c

/-- Spec-side description of the marker drawn for one record: center at the
record's coordinates, radius defaulted to 0.5, fill color defaulted to
"blue", fixed alpha 0.5. -/
def specMarker (c : Obj) : MCircle :=
  { cx := (horizRaw c).getD (JVal.num 0),
    cy := (vertRaw c).getD (JVal.num 0),
    radius := (Obj.get c "radius").getD (JVal.num (1/2)),
    color := (Obj.get c "color").getD (JVal.str "blue"),
    alpha := 1/2 }

/-- The object elements of the top-level array, in input order. -/
def objsOf (entries : List JEntry) : List Obj :=
  entries.filterMap (fun e =>
    match e with
    | JEntry.obj o => some o
    | JEntry.nonObj => none)

/-- Whether an array element is an object. -/
def isObjEntry : JEntry → Bool
  | JEntry.obj _ => true
  | JEntry.nonObj => false

/-- Element-wise fallible map, stopping at the first failure. -/
def mapExcept (f : Obj → Except String Obj) : List Obj → Except String (List Obj)
  | [] => Except.ok []
  | x :: xs =>
      match f x with
      | Except.error e => Except.error e
      | Except.ok y =>
          match mapExcept f xs with
          | Except.error e => Except.error e
          | Except.ok ys => Except.ok (y :: ys)

/-- An object whose "string" field holds an unrecognized symbolic name. -/
def objBad (o : Obj) : Bool :=
  match Obj.get o "string" with
  | some (JVal.str s) => (lookupSymbol s).isNone
  | _ => false

/-- An array element carrying an unrecognized symbolic vertical position. -/
def badSymbol : JEntry → Bool
  | JEntry.obj o => objBad o
  | JEntry.nonObj => false

/-- Whether a loader result is the raised `ValueError`. -/
def isErr {α : Type} : Except String α → Bool
  | Except.error _ => true
  | Except.ok _ => false

/-- The integers from `a` to `b` inclusive. -/
def intRangeIncl (a b : ℤ) : List ℤ :=
  (List.range (b + 1 - a).toNat).map (fun i : ℕ => a + (i : ℤ))

/-- Floor of a rational, computed concretely on numerator and denominator. -/
def ratFloor (q : ℚ) : ℤ :=
  Int.fdiv q.num q.den

/-- The vertical-gridline positions claim C7 asserts, written from the
claim's own words: one line per integer from floor(xmin) to floor(xmax)
inclusive, to be compared with the positions the code produces. -/
def claimedVLines (xmin xmax : ℚ) : List ℤ :=
  intRangeIncl (ratFloor xmin) (ratFloor xmax)

/-- Lookup succeeds exactly on the keys present. -/
theorem Obj.get_isSome (o : Obj) (k : String) :
    (Obj.get o k).isSome = Obj.hasKey o k := by
  induction o with
  | nil => rfl
  | cons p ps ih =>
      cases h : (p.1 == k) <;> simp [Obj.get, Obj.hasKey, h, ih]

/-- Lookup returns `none` exactly on the keys absent. -/
theorem Obj.get_none_iff (o : Obj) (k : String) :
    Obj.get o k = none ↔ Obj.hasKey o k = false := by
  rw [← Obj.get_isSome o k]
  cases Obj.get o k <;> simp

/-- A successful lookup witnesses key membership. -/
theorem Obj.hasKey_of_get (o : Obj) (k : String) (v : JVal)
    (h : Obj.get o k = some v) : Obj.hasKey o k = true := by
  rw [← Obj.get_isSome, h]; rfl

/-- Updating one key leaves every other key unchanged. -/
theorem Obj.get_set_ne (o : Obj) (k k' : String) (v : JVal) (h : k' ≠ k) :
    Obj.get (Obj.set o k v) k' = Obj.get o k' := by
  induction o with
  | nil => rfl
  | cons p ps ih =>
      cases hpk : (p.1 == k)
      · simp [Obj.set, Obj.get, hpk, ih]
      · have hk : p.1 = k := by simpa using hpk
        have hkk' : (k == k') = false := by
          simp only [beq_eq_false_iff_ne]; exact fun e => h e.symm
        have hpk' : (p.1 == k') = false := by rw [hk]; exact hkk'
        simp [Obj.set, Obj.get, hpk, hkk', hpk', ih]

/-- Updating a present key stores the new value. -/
theorem Obj.get_set_self (o : Obj) (k : String) (v : JVal)
    (h : Obj.hasKey o k = true) : Obj.get (Obj.set o k v) k = some v := by
  induction o with
  | nil => simp [Obj.hasKey] at h
  | cons p ps ih =>
      cases hpk : (p.1 == k)
      · simp only [Obj.hasKey, hpk, Bool.false_or] at h
        simp [Obj.set, Obj.get, hpk, ih h]
      · simp [Obj.set, Obj.get, hpk]

/-- `foldl min` computes an element of the list. -/
theorem foldl_min_mem (v : ℚ) (vs : List ℚ) : vs.foldl min v ∈ v :: vs := by
  induction vs generalizing v with
  | nil => simp
  | cons w ws ih =>
      rw [List.foldl_cons]
      rcases min_choice v w with h' | h'
      · rw [h']
        rcases List.mem_cons.1 (ih v) with h2 | h2 <;> simp [h2]
      · rw [h']
        rcases List.mem_cons.1 (ih w) with h2 | h2 <;> simp [h2]

/-- `foldl min` is a lower bound for the list. -/
theorem foldl_min_le (v : ℚ) (vs : List ℚ) : ∀ w ∈ v :: vs, vs.foldl min v ≤ w := by
  induction vs generalizing v with
  | nil =>
      intro w hw
      rcases List.mem_cons.1 hw with h | h
      · simp [h]
      · simp at h
  | cons u us ih =>
      intro w hw
      rw [List.foldl_cons]
      rcases List.mem_cons.1 hw with h | h
      · rw [h]
        exact le_trans (ih (min v u) _ (List.mem_cons_self _ _)) (min_le_left _ _)
      · rcases List.mem_cons.1 h with h2 | h2
        · rw [h2]
          exact le_trans (ih (min v u) _ (List.mem_cons_self _ _)) (min_le_right _ _)
        · exact ih (min v u) _ (List.mem_cons.2 (Or.inr h2))

/-- `foldl max` computes an element of the list. -/
theorem foldl_max_mem (v : ℚ) (vs : List ℚ) : vs.foldl max v ∈ v :: vs := by
  induction vs generalizing v with
  | nil => simp
  | cons w ws ih =>
      rw [List.foldl_cons]
      rcases max_choice v w with h' | h'
      · rw [h']
        rcases List.mem_cons.1 (ih v) with h2 | h2 <;> simp [h2]
      · rw [h']
        rcases List.mem_cons.1 (ih w) with h2 | h2 <;> simp [h2]

/-- `foldl max` is an upper bound for the list. -/
theorem le_foldl_max (v : ℚ) (vs : List ℚ) : ∀ w ∈ v :: vs, w ≤ vs.foldl max v := by
  induction vs generalizing v with
  | nil =>
      intro w hw
      rcases List.mem_cons.1 hw with h | h
      · simp [h]
      · simp at h
  | cons u us ih =>
      intro w hw
      rw [List.foldl_cons]
      rcases List.mem_cons.1 hw with h | h
      · rw [h]
        exact le_trans (le_max_left _ _) (ih (max v u) _ (List.mem_cons_self _ _))
      · rcases List.mem_cons.1 h with h2 | h2
        · rw [h2]
          exact le_trans (le_max_right _ _) (ih (max v u) _ (List.mem_cons_self _ _))
        · exact ih (max v u) _ (List.mem_cons.2 (Or.inr h2))

theorem horizRaw_isSome (c : Obj) : (horizRaw c).isSome = hasHoriz c := by
  unfold horizRaw hasHoriz
  cases h : Obj.get c "fret"
  · rw [(Obj.get_none_iff c "fret").1 h]
    simp [Option.orElse, ← Obj.get_isSome]
  · rw [Obj.hasKey_of_get _ _ _ h]
    simp [Option.orElse]

theorem vertRaw_isSome (c : Obj) : (vertRaw c).isSome = hasVert c := by
  unfold vertRaw hasVert
  cases h : Obj.get c "string"
  · rw [(Obj.get_none_iff c "string").1 h]
    simp [Option.orElse, ← Obj.get_isSome]
  · rw [Obj.hasKey_of_get _ _ _ h]
    simp [Option.orElse]

theorem markerOf_eq (c : Obj) :
    markerOf c = if hasBothCoords c then some (specMarker c) else none := by
  unfold markerOf specMarker hasBothCoords
  rw [← horizRaw_isSome, ← vertRaw_isSome]
  cases hx : horizRaw c <;> cases hy : vertRaw c <;> simp

/-- Claim C1: for every input list, the marker renderer draws exactly one
filled circle per record that has both coordinate fields, in input order,
centered at the record's (horizontal, vertical) coordinates, with radius
defaulted to 0.5, fill color defaulted to "blue", and the fixed alpha 0.5;
records missing either coordinate are skipped without error. -/
theorem plot_circles_correct (circles : List Obj) :
    plot_circles circles = (circles.filter hasBothCoords).map specMarker := by
  induction circles with
  | nil => rfl
  | cons c cs ih =>
      show List.filterMap markerOf (c :: cs) = _
      rw [List.filterMap_cons, markerOf_eq c, List.filter_cons]
      cases h : hasBothCoords c <;> simp [h, ih, plot_circles] at *
      · exact ih
      · exact ih

theorem normalizeEntry_err (o : Obj) : isErr (normalizeEntry o) = objBad o := by
  unfold normalizeEntry objBad
  cases h : Obj.get o "string" with
  | none => rfl
  | some v =>
      cases v with
      | num q => rfl
      | str s => cases hl : lookupSymbol s <;> simp [isErr, hl]

theorem normalizeEntries_err (entries : List JEntry) :
    isErr (normalizeEntries entries) = entries.any badSymbol := by
  induction entries with
  | nil => rfl
  | cons e rest ih =>
      cases e with
      | nonObj =>
          simp only [normalizeEntries, List.any_cons, badSymbol, Bool.false_or]
          exact ih
      | obj o =>
          have hne := normalizeEntry_err o
          simp only [normalizeEntries, List.any_cons, badSymbol]
          cases hno : normalizeEntry o
          · rw [hno] at hne
            simp only [isErr] at hne ⊢
            rw [← hne]
            rfl
          · rw [hno] at hne
            simp only [isErr] at hne
            rw [← hne, Bool.false_or]
            cases hrest : normalizeEntries rest
            · rw [hrest] at ih
              exact ih
            · rw [hrest] at ih
              exact ih

/-- Claim C2: symbol normalization is a pure total function mapping E, A, D,
G, B, e to 0..5; every other string under the "string" key makes loading
raise, and loading raises exactly when such an unrecognized symbolic value
is present; a numeric "string" value passes through unchanged. -/
theorem symbol_normalization_correct :
    (lookupSymbol "E" = some 0 ∧ lookupSymbol "A" = some 1 ∧ lookupSymbol "D" = some 2 ∧
      lookupSymbol "G" = some 3 ∧ lookupSymbol "B" = some 4 ∧ lookupSymbol "e" = some 5) ∧
    (∀ s : String, s ≠ "E" → s ≠ "A" → s ≠ "D" → s ≠ "G" → s ≠ "B" → s ≠ "e" →
      lookupSymbol s = none) ∧
    (∀ entries : List JEntry,
      isErr (load_data (JTop.list entries)) = entries.any badSymbol) ∧
    (∀ (o : Obj) (q : ℚ), Obj.get o "string" = some (JVal.num q) →
      normalizeEntry o = Except.ok o) := by
  refine ⟨⟨rfl, rfl, rfl, rfl, rfl, rfl⟩, ?_, ?_, ?_⟩
  · intro s h1 h2 h3 h4 h5 h6
    have e1 : ("E" == s) = false := beq_eq_false_iff_ne.2 (fun e => h1 e.symm)
    have e2 : ("A" == s) = false := beq_eq_false_iff_ne.2 (fun e => h2 e.symm)
    have e3 : ("D" == s) = false := beq_eq_false_iff_ne.2 (fun e => h3 e.symm)
    have e4 : ("G" == s) = false := beq_eq_false_iff_ne.2 (fun e => h4 e.symm)
    have e5 : ("B" == s) = false := beq_eq_false_iff_ne.2 (fun e => h5 e.symm)
    have e6 : ("e" == s) = false := beq_eq_false_iff_ne.2 (fun e => h6 e.symm)
    simp [lookupSymbol, STRING_MAP, List.find?, e1, e2, e3, e4, e5, e6]
  · intro entries
    exact normalizeEntries_err entries
  · intro o q h
    unfold normalizeEntry
    rw [h]

theorem symbol_normalization_correct_witness :
    lookupSymbol "Z" = none ∧
    normalizeEntry [("string", JVal.num 2)] = Except.ok [("string", JVal.num 2)] ∧
    isErr (load_data (JTop.list [JEntry.obj [("string", JVal.str "Z")]])) =
      [JEntry.obj [("string", JVal.str "Z")]].any badSymbol :=
  ⟨symbol_normalization_correct.2.1 "Z" (by decide) (by decide) (by decide) (by decide)
      (by decide) (by decide),
   symbol_normalization_correct.2.2.2 [("string", JVal.num 2)] 2 rfl,
   symbol_normalization_correct.2.2.1 [JEntry.obj [("string", JVal.str "Z")]]⟩

theorem objsOf_length (entries : List JEntry) :
    (objsOf entries).length = (entries.filter isObjEntry).length := by
  induction entries with
  | nil => rfl
  | cons e rest ih =>
      cases e <;> simp [objsOf, isObjEntry, List.filterMap_cons, List.filter_cons] at * <;>
        exact ih

theorem normalizeEntries_eq_mapExcept (entries : List JEntry) :
    normalizeEntries entries = mapExcept normalizeEntry (objsOf entries) := by
  induction entries with
  | nil => rfl
  | cons e rest ih =>
      cases e with
      | nonObj => simpa [normalizeEntries, objsOf, List.filterMap_cons] using ih
      | obj o =>
          simp only [normalizeEntries, objsOf, List.filterMap_cons] at *
          rw [ih]
          rfl

theorem mapExcept_ok_length (f : Obj → Except String Obj) (l : List Obj) (out : List Obj)
    (h : mapExcept f l = Except.ok out) : out.length = l.length := by
  induction l generalizing out with
  | nil =>
      simp only [mapExcept] at h
      injection h with h2
      rw [← h2]
  | cons x xs ih =>
      simp only [mapExcept] at h
      cases hf : f x <;> rw [hf] at h
      · exact Except.noConfusion h
      · cases hm : mapExcept f xs <;> rw [hm] at h
        · exact Except.noConfusion h
        · injection h with h2
          rw [← h2, List.length_cons, List.length_cons, ih _ hm]

/-- Claim C5: a non-list top level fails with the schema error; otherwise
non-object elements are silently skipped and the output lists the
normalized records of the remaining objects in input order, one output
record per object element, with no sorting and no deduplication. -/
theorem load_data_shape (entries : List JEntry) (out : List Obj) :
    load_data JTop.nonList = Except.error "JSON must contain a list of circle specs" ∧
    load_data (JTop.list entries) = mapExcept normalizeEntry (objsOf entries) ∧
    (load_data (JTop.list entries) = Except.ok out →
      out.length = (entries.filter isObjEntry).length) := by
  refine ⟨rfl, normalizeEntries_eq_mapExcept entries, ?_⟩
  intro h
  rw [show load_data (JTop.list entries) = normalizeEntries entries from rfl,
    normalizeEntries_eq_mapExcept entries] at h
  rw [mapExcept_ok_length _ _ _ h, objsOf_length]

theorem load_data_shape_witness :
    load_data (JTop.list [JEntry.nonObj, JEntry.obj [("fret", JVal.num 1)]]) =
      Except.ok [[("fret", JVal.num 1)]] ∧
    ([[("fret", JVal.num 1)]] : List Obj).length =
      ([JEntry.nonObj, JEntry.obj [("fret", JVal.num 1)]].filter isObjEntry).length :=
  ⟨rfl,
   (load_data_shape [JEntry.nonObj, JEntry.obj [("fret", JVal.num 1)]]
     [[("fret", JVal.num 1)]]).2.2 rfl⟩

/-- Claim C4: if at least one record has a horizontal position then the
horizontal bounds are (min - 1, max + 1), otherwise (0, 10); the
computation never fails, in particular not on the empty sequence. -/
theorem horizontal_bounds_correct (circles : List Obj) (qs : List ℚ)
    (h : allNums (horizVals circles) = some qs) :
    (qs = [] → mainBoundsX circles = some (0, 10)) ∧
    (∀ v vs, qs = v :: vs →
      mainBoundsX circles = some (vs.foldl min v - 1, vs.foldl max v + 1) ∧
      vs.foldl min v ∈ qs ∧ (∀ q ∈ qs, vs.foldl min v ≤ q) ∧
      vs.foldl max v ∈ qs ∧ (∀ q ∈ qs, q ≤ vs.foldl max v)) := by
  constructor
  · intro he
    subst he
    unfold mainBoundsX
    rw [h]
    rfl
  · intro v vs he
    subst he
    refine ⟨?_, foldl_min_mem v vs, foldl_min_le v vs, foldl_max_mem v vs,
      le_foldl_max v vs⟩
    unfold mainBoundsX
    rw [h]
    rfl

theorem horizontal_bounds_correct_witness :
    mainBoundsX [] = some (0, 10) :=
  (horizontal_bounds_correct [] [] rfl).1 rfl

theorem hPositions_length (ymin ymax : ℚ) : (hPositions ymin ymax).length = 6 := by
  unfold hPositions
  split <;> rfl

theorem range_six : List.range gridLabels.length = [0, 1, 2, 3, 4, 5] := rfl

theorem hPositions_head (ymin ymax : ℚ) (h : ymin < ymax) :
    (hPositions ymin ymax).headD 0 = ymin := by
  unfold hPositions
  split
  · rw [range_six]
    simp
  · rename_i hng
    exact absurd h hng

theorem hPositions_last (ymin ymax : ℚ) (h : ymin < ymax) :
    (hPositions ymin ymax).getLastD 0 = ymax := by
  unfold hPositions
  split
  · rw [range_six]
    simp only [List.map_cons, List.map_nil, List.getLastD_cons, List.getLastD_nil]
    have h5 : ((gridLabels.length - 1 : ℕ) : ℚ) = 5 := by norm_num [gridLabels]
    rw [h5]
    push_cast
    field_simp
  · rename_i hng
    exact absurd h hng

/-- Claim C3 counterexample: on the empty normalized input the code computes
vertical bounds (0, 10), not the claimed fixed (0, 5), and the six gridlines
then sit at 0, 2, 4, 6, 8, 10 rather than at the integer slots 0..5. -/
theorem vertical_bounds_not_fixed :
    mainBoundsY [] = some (0, 10) ∧
    ((0 : ℚ), (10 : ℚ)) ≠ ((0 : ℚ), (5 : ℚ)) ∧
    hPositions 0 10 = [0, 2, 4, 6, 8, 10] ∧
    hPositions 0 10 ≠ [0, 1, 2, 3, 4, 5] := by
  refine ⟨rfl, by norm_num, ?_, ?_⟩
  · norm_num [hPositions, gridLabels, List.range_succ]
  · norm_num [hPositions, gridLabels, List.range_succ]

/-- Claim C3 amended: the vertical viewport bounds are data-driven exactly
like the horizontal ones — one less than the minimum and one more than the
maximum vertical value, defaulting to (0, 10) on empty data — and the six
gridlines are spread evenly across [ymin, ymax], first at ymin and last at
ymax, so they are not pinned to the integer slots 0..5. -/
theorem vertical_bounds_data_driven (circles : List Obj) (qs : List ℚ)
    (h : allNums (vertVals circles) = some qs) :
    (qs = [] → mainBoundsY circles = some (0, 10)) ∧
    (∀ v vs, qs = v :: vs →
      mainBoundsY circles = some (vs.foldl min v - 1, vs.foldl max v + 1) ∧
      vs.foldl min v ∈ qs ∧ (∀ q ∈ qs, vs.foldl min v ≤ q) ∧
      vs.foldl max v ∈ qs ∧ (∀ q ∈ qs, q ≤ vs.foldl max v) ∧
      vs.foldl min v - 1 < vs.foldl max v + 1 ∧
      (hPositions (vs.foldl min v - 1) (vs.foldl max v + 1)).length = 6 ∧
      (hPositions (vs.foldl min v - 1) (vs.foldl max v + 1)).headD 0 =
        vs.foldl min v - 1 ∧
      (hPositions (vs.foldl min v - 1) (vs.foldl max v + 1)).getLastD 0 =
        vs.foldl max v + 1) := by
  constructor
  · intro he
    subst he
    unfold mainBoundsY
    rw [h]
    rfl
  · intro v vs he
    subst he
    have hlt : vs.foldl min v - 1 < vs.foldl max v + 1 := by
      have h1 : vs.foldl min v ≤ v := foldl_min_le v vs v (List.mem_cons_self _ _)
      have h2 : v ≤ vs.foldl max v := le_foldl_max v vs v (List.mem_cons_self _ _)
      linarith
    refine ⟨?_, foldl_min_mem v vs, foldl_min_le v vs, foldl_max_mem v vs,
      le_foldl_max v vs, hlt, hPositions_length _ _, hPositions_head _ _ hlt,
      hPositions_last _ _ hlt⟩
    unfold mainBoundsY
    rw [h]
    rfl

theorem vertical_bounds_data_driven_witness :
    mainBoundsY [[("string", JVal.num 2)]] =
      some (([] : List ℚ).foldl min 2 - 1, ([] : List ℚ).foldl max 2 + 1) :=
  ((vertical_bounds_data_driven [[("string", JVal.num 2)]] [2] rfl).2 2 [] rfl).1

/-- Claim C6: for every viewport the grid renderer draws exactly six
horizontal reference lines, in strictly increasing (bottom-to-top) order,
labeled E, A, D, G, B, e, with the tick positions equal to the line
positions, regardless of the numeric bounds. -/
theorem grid_six_horizontal_lines (xmin xmax ymin ymax : ℚ) (spacing : ℤ) :
    (draw_grid xmin xmax ymin ymax spacing).hlines.length = 6 ∧
    (draw_grid xmin xmax ymin ymax spacing).ylabels = ["E", "A", "D", "G", "B", "e"] ∧
    (draw_grid xmin xmax ymin ymax spacing).yticks =
      (draw_grid xmin xmax ymin ymax spacing).hlines ∧
    (draw_grid xmin xmax ymin ymax spacing).hlines.Chain' (· < ·) := by
  refine ⟨hPositions_length ymin ymax, rfl, rfl, ?_⟩
  show (hPositions ymin ymax).Chain' (· < ·)
  unfold hPositions
  split
  · rename_i hgt
    have h5 : ((gridLabels.length - 1 : ℕ) : ℚ) = 5 := by norm_num [gridLabels]
    have hstep : 0 < (ymax - ymin) / ((gridLabels.length - 1 : ℕ) : ℚ) := by
      rw [h5]
      apply div_pos (by linarith) (by norm_num)
    rw [range_six]
    simp only [List.map_cons, List.map_nil, List.chain'_cons, List.chain'_singleton,
      and_true]
    push_cast
    refine ⟨?_, ?_, ?_, ?_, ?_⟩ <;> nlinarith [hstep]
  · rw [range_six]
    simp only [List.map_cons, List.map_nil, List.chain'_cons, List.chain'_singleton,
      and_true]
    norm_num

theorem fdiv_ofNat (a : ℤ) (n : ℕ) : Int.fdiv a (Int.ofNat n) = a / (Int.ofNat n) := by
  show Int.fdiv a (Int.ofNat n) = Int.ediv a (Int.ofNat n)
  cases a with
  | ofNat m => cases m <;> cases n <;> simp [Int.fdiv, Int.ediv, Nat.zero_div]
  | negSucc m => cases n <;> rfl

theorem ratFloor_eq_floor (q : ℚ) : ratFloor q = ⌊q⌋ := by
  rw [Rat.floor_def, ratFloor]
  exact fdiv_ofNat q.num q.den

theorem pyRange_one_mem (a b k : ℤ) : k ∈ pyRange a b 1 ↔ a ≤ k ∧ k < b := by
  unfold pyRange
  rw [if_neg (by omega : ¬ (1 : ℤ) ≤ 0)]
  simp only [List.mem_map, List.mem_range]
  constructor
  · rintro ⟨i, hi, rfl⟩
    omega
  · intro hk
    exact ⟨(k - a).toNat, by omega, by omega⟩

theorem pyRange_one_nodup (a b : ℤ) : (pyRange a b 1).Nodup := by
  unfold pyRange
  rw [if_neg (by omega : ¬ (1 : ℤ) ≤ 0)]
  refine List.Nodup.map ?_ (List.nodup_range _)
  intro i j hij
  simp only [mul_one, add_right_inj, Nat.cast_inj] at hij
  exact hij

/-- Claim C7 counterexample: with xmin = -3/2 and xmax = 2 the code draws
vertical lines at -1, 0, 1, 2 (Python int() truncates toward zero), while
the claim demands floor-based lines at -2, -1, 0, 1, 2. -/
theorem vlines_not_floor :
    (draw_grid (Rat.divInt (-3) 2) 2 0 5 1).vlines = [-1, 0, 1, 2] ∧
    claimedVLines (Rat.divInt (-3) 2) 2 = [-2, -1, 0, 1, 2] ∧
    (draw_grid (Rat.divInt (-3) 2) 2 0 5 1).vlines ≠
      claimedVLines (Rat.divInt (-3) 2) 2 := by
  exact ⟨by decide, by decide, by decide⟩

/-- Claim C7 amended: with the default spacing of 1 the grid renderer draws
exactly one vertical line per integer from trunc(xmin) to trunc(xmax)
inclusive, where trunc is truncation toward zero (Python int()), which
differs from floor only on negative non-integral bounds. -/
theorem vlines_trunc_range (xmin xmax ymin ymax : ℚ) (k : ℤ) :
    (k ∈ (draw_grid xmin xmax ymin ymax 1).vlines ↔
      pyInt xmin ≤ k ∧ k ≤ pyInt xmax) ∧
    (draw_grid xmin xmax ymin ymax 1).vlines.Nodup := by
  constructor
  · show k ∈ pyRange (pyInt xmin) (pyInt xmax + 1) 1 ↔ _
    rw [pyRange_one_mem]
    omega
  · exact pyRange_one_nodup _ _

/-- Claim C8: with an argument count other than one the program exits with
status 1 after printing the usage message, and with a single path that does
not exist it exits with status 1 after printing the file-does-not-exist
message; in both cases nothing is loaded or rendered. -/
theorem cli_errors (argv : List String) (fileExists : Bool) (json : JTop) :
    (argv.length ≠ 2 →
      fbchart_main argv fileExists json =
        MainResult.earlyExit 1 (usageMessage (argv.headD ""))) ∧
    (argv.length = 2 → fileExists = false →
      fbchart_main argv fileExists json =
        MainResult.earlyExit 1 (missingFileMessage (argv.getD 1 ""))) := by
  constructor
  · intro h
    unfold fbchart_main
    rw [if_pos h]
  · intro h hf
    unfold fbchart_main
    rw [if_neg (fun hn => hn h), if_pos hf]

theorem cli_errors_witness :
    fbchart_main ["fbchart.py"] true JTop.nonList =
      MainResult.earlyExit 1 (usageMessage "fbchart.py") ∧
    fbchart_main ["fbchart.py", "data.json"] false JTop.nonList =
      MainResult.earlyExit 1 (missingFileMessage "data.json") :=
  ⟨(cli_errors ["fbchart.py"] true JTop.nonList).1 (by decide),
   (cli_errors ["fbchart.py", "data.json"] false JTop.nonList).2 (by decide) rfl⟩

theorem markerOf_none_iff (c : Obj) :
    markerOf c = none ↔ (horizRaw c = none ∨ vertRaw c = none) := by
  unfold markerOf
  cases hx : horizRaw c <;> cases hy : vertRaw c <;> simp

theorem horizRaw_none_iff (c : Obj) :
    horizRaw c = none ↔
      (Obj.hasKey c "fret" = false ∧ Obj.hasKey c "x" = false) := by
  rw [← Option.not_isSome_iff_eq_none, horizRaw_isSome]
  unfold hasHoriz
  simp

theorem vertRaw_none_iff (c : Obj) :
    vertRaw c = none ↔
      (Obj.hasKey c "string" = false ∧ Obj.hasKey c "y" = false) := by
  rw [← Option.not_isSome_iff_eq_none, vertRaw_isSome]
  unfold hasVert
  simp

/-- Claim C9: a record lacking "fret" but carrying "x" uses the "x" value as
its horizontal coordinate, and likewise "y" substitutes for a missing
"string", both in the bounds computation and in marker drawing; a record is
skipped only when neither key of a coordinate pair is present. -/
theorem xy_fallback (c : Obj) (v w : JVal) :
    (Obj.hasKey c "fret" = false → Obj.get c "x" = some v → horizRaw c = some v) ∧
    (Obj.hasKey c "string" = false → Obj.get c "y" = some w → vertRaw c = some w) ∧
    (Obj.hasKey c "fret" = false → Obj.get c "x" = some v →
      boundsContribX c = some v) ∧
    (Obj.hasKey c "string" = false → Obj.get c "y" = some w →
      boundsContribY c = some w) ∧
    (Obj.hasKey c "fret" = false → Obj.get c "x" = some v →
      ∀ m, markerOf c = some m → m.cx = v) ∧
    (Obj.hasKey c "string" = false → Obj.get c "y" = some w →
      ∀ m, markerOf c = some m → m.cy = w) ∧
    (markerOf c = none ↔
      ((Obj.hasKey c "fret" = false ∧ Obj.hasKey c "x" = false) ∨
       (Obj.hasKey c "string" = false ∧ Obj.hasKey c "y" = false))) := by
  have hx : Obj.hasKey c "fret" = false → Obj.get c "x" = some v → horizRaw c = some v := by
    intro hf hgx
    unfold horizRaw
    rw [(Obj.get_none_iff c "fret").2 hf, hgx]
    rfl
  have hy : Obj.hasKey c "string" = false → Obj.get c "y" = some w → vertRaw c = some w := by
    intro hs hgy
    unfold vertRaw
    rw [(Obj.get_none_iff c "string").2 hs, hgy]
    rfl
  refine ⟨hx, hy, ?_, ?_, ?_, ?_, ?_⟩
  · intro hf hgx
    unfold boundsContribX
    have hh : hasHoriz c = true := by
      unfold hasHoriz
      rw [Obj.hasKey_of_get _ _ _ hgx, Bool.or_true]
    rw [hh, if_pos rfl, hx hf hgx]
    rfl
  · intro hs hgy
    unfold boundsContribY
    have hh : hasVert c = true := by
      unfold hasVert
      rw [Obj.hasKey_of_get _ _ _ hgy, Bool.or_true]
    rw [hh, if_pos rfl, hy hs hgy]
    rfl
  · intro hf hgx m hm
    unfold markerOf at hm
    rw [hx hf hgx] at hm
    cases hvr : vertRaw c <;> rw [hvr] at hm
    · exact Option.noConfusion hm
    · injection hm with hm2
      rw [← hm2]
  · intro hs hgy m hm
    unfold markerOf at hm
    rw [hy hs hgy] at hm
    cases hhr : horizRaw c <;> rw [hhr] at hm
    · exact Option.noConfusion hm
    · injection hm with hm2
      rw [← hm2]
  · rw [markerOf_none_iff, horizRaw_none_iff, vertRaw_none_iff]

theorem xy_fallback_witness :
    horizRaw [("x", JVal.num 3), ("y", JVal.num 4)] = some (JVal.num 3) ∧
    boundsContribX [("x", JVal.num 3), ("y", JVal.num 4)] = some (JVal.num 3) :=
  ⟨(xy_fallback [("x", JVal.num 3), ("y", JVal.num 4)] (JVal.num 3) (JVal.num 4)).1
      rfl rfl,
   (xy_fallback [("x", JVal.num 3), ("y", JVal.num 4)] (JVal.num 3) (JVal.num 4)).2.2.1
      rfl rfl⟩

/-- Claim C10: the loader outputs a copy of each object in which every key
other than "string" maps to the same value as in the input, and the
"string" key is changed (to the mapped number) only when it held a
recognized symbolic name. -/
theorem loader_preserves_fields (entry out : Obj)
    (h : normalizeEntry entry = Except.ok out) :
    (∀ k, k ≠ "string" → Obj.get out k = Obj.get entry k) ∧
    (∀ s, Obj.get entry "string" = some (JVal.str s) →
      (lookupSymbol s).isSome = true ∧
      Obj.get out "string" = (lookupSymbol s).map JVal.num) ∧
    (∀ q, Obj.get entry "string" = some (JVal.num q) →
      Obj.get out "string" = some (JVal.num q)) ∧
    (Obj.get entry "string" = none → Obj.get out "string" = none) := by
  unfold normalizeEntry at h
  cases hs : Obj.get entry "string" <;> rw [hs] at h
  · injection h with h2
    subst h2
    exact ⟨fun k _ => rfl, fun s hss => Option.noConfusion hss,
      fun q hsq => Option.noConfusion hsq, fun _ => hs⟩
  · rename_i val
    cases val with
    | num q0 =>
        injection h with h2
        subst h2
        refine ⟨fun k _ => rfl, ?_, ?_, fun hnone => Option.noConfusion hnone⟩
        · intro s hss
          injection hss with hv
          exact JVal.noConfusion hv
        · intro q hsq
          injection hsq with hv
          rw [← hv]
          exact hs
    | str s0 =>
        have h2 : (match lookupSymbol s0 with
            | some n => Except.ok (Obj.set entry "string" (JVal.num n))
            | none => Except.error ("Invalid string value " ++ s0)) =
              Except.ok out := h
        cases hl : lookupSymbol s0 <;> rw [hl] at h2
        · exact Except.noConfusion h2
        · rename_i n
          injection h2 with h3
          subst h3
          have hkey : Obj.hasKey entry "string" = true :=
            Obj.hasKey_of_get _ _ _ hs
          refine ⟨?_, ?_, ?_, fun hnone => Option.noConfusion hnone⟩
          · intro k hk
            exact Obj.get_set_ne entry "string" k (JVal.num n) hk
          · intro s hss
            injection hss with hv
            injection hv with hv2
            subst hv2
            rw [hl]
            exact ⟨rfl, Obj.get_set_self entry "string" (JVal.num n) hkey⟩
          · intro q hsq
            injection hsq with hv
            exact JVal.noConfusion hv

theorem loader_preserves_fields_witness :
    Obj.get [("string", JVal.num 0), ("color", JVal.str "red")] "color" =
      Obj.get [("string", JVal.str "E"), ("color", JVal.str "red")] "color" ∧
    Obj.get [("string", JVal.num 0), ("color", JVal.str "red")] "string" =
      (lookupSymbol "E").map JVal.num :=
  ⟨(loader_preserves_fields [("string", JVal.str "E"), ("color", JVal.str "red")]
      [("string", JVal.num 0), ("color", JVal.str "red")] rfl).1 "color" (by decide),
   ((loader_preserves_fields [("string", JVal.str "E"), ("color", JVal.str "red")]
      [("string", JVal.num 0), ("color", JVal.str "red")] rfl).2.1 "E" rfl).2⟩
